import Mathlib

/-!
Verification of the `advbox` command-line utilities (Rust sources) against their
natural-language specification.  The Rust code is shallowly embedded: machine
integers (`i32`, `u32`, `i64`, `u64`) are modelled as `Int` or `Nat`, Rust's
truncating integer division and remainder as `Int.tdiv` and `Int.tmod`, Rust
strings as `List Char`, and `std::time::Duration` as a count of nanoseconds
(`Nat`).  Every definition mirrors the corresponding Rust item; the theorems at
the end settle the specification claims.
-/

namespace Advbox

/-- Rust `str::to_lowercase` restricted to the ASCII range (sufficient for
every string the programs compare case-insensitively). -/
def rustToLower (s : List Char) : List Char := s.map Char.toLower

namespace Datediff

/-- Cumulative day counts before each month of a non-leap year: the local array
`days_before_month` of `date_to_seconds` in `src/datediff.rs`. -/
def daysBeforeMonth : List Int := [0, 31, 59, 90, 120, 151, 181, 212, 243, 273, 304, 334]

/-- The leap-year test `(year % 4 == 0 && year % 100 != 0) || year % 400 == 0`
used throughout `src/datediff.rs`, with Rust `%` (truncating remainder on `i32`)
modelled by `Int.tmod`. -/
def is_leap (year : Int) : Bool :=
  decide ((year.tmod 4 = 0 ∧ year.tmod 100 ≠ 0) ∨ year.tmod 400 = 0)

/-- Function `date_to_seconds` from `src/datediff.rs` (lines 151-169).  Rust `/` on
integers is `Int.tdiv`.  The `u32` index expression `month as usize - 1` is
modelled by `List.getD` at index `(month - 1).toNat`; for the argument ranges
quantified over by the theorems below no Rust panic or wrap occurs, so the
model is exact there. -/
def date_to_seconds (year month day hour minute second : Int) : Int :=
  let years := year - 1970
  let days0 := daysBeforeMonth.getD (month - 1).toNat 0 + day - 1
  let leap_years := (1968 + years).tdiv 4 - (1968 + years).tdiv 100 + (1968 + years).tdiv 400
      - (1968 : Int).tdiv 4 + (1968 : Int).tdiv 100 - (1968 : Int).tdiv 400
  let days1 := days0 + leap_years
  let days2 := if 2 < month ∧ is_leap year then days1 + 1 else days1
  days2 * 86400 + hour * 3600 + minute * 60 + second

/-- Number of days in `year`, as computed inline by the year loop of
`seconds_to_date`. -/
def daysInYear (year : Int) : Int := if is_leap year then 366 else 365

/-- The `while days_remaining >= 365` loop of `seconds_to_date`
(`src/datediff.rs` lines 183-196): starting from `year`, repeatedly subtract
the length of the current year while it fits, returning the final year and the
remaining day count. -/
def yearLoop (year days_remaining : Int) : Int × Int :=
  if 365 ≤ days_remaining then
    if daysInYear year ≤ days_remaining then
      yearLoop (year + 1) (days_remaining - daysInYear year)
    else (year, days_remaining)
  else (year, days_remaining)
termination_by days_remaining.toNat
decreasing_by
  unfold daysInYear
  split <;> omega

/-- The month-length table `month_days` of `seconds_to_date`. -/
def month_days : List Int := [31, 28, 31, 30, 31, 30, 31, 31, 30, 31, 30, 31]

/-- The `for (i, &days_in_month) in month_days.iter().enumerate()` loop of
`seconds_to_date` (`src/datediff.rs` lines 205-217): walks the month table
(adding one day to February in a leap year), subtracting month lengths from
`day` and advancing `month` until the day fits, then stops. -/
def monthLoop (leap : Bool) : List Int → Nat → Int → Int → Int × Int
  | [], _, month, day => (month, day)
  | dim0 :: rest, i, month, day =>
    let dim := if i = 1 ∧ leap then dim0 + 1 else dim0
    if dim < day then monthLoop leap rest (i + 1) (month + 1) (day - dim)
    else (month, day)

/-- Function `seconds_to_date` from `src/datediff.rs` (lines 172-220), returning
`(year, month, day, hour, minute, second)`. -/
def seconds_to_date (secs : Int) : Int × Int × Int × Int × Int × Int :=
  let days := secs.tdiv 86400
  let secs_of_day := secs.tmod 86400
  let hour := secs_of_day.tdiv 3600
  let minute := (secs_of_day.tmod 3600).tdiv 60
  let second := secs_of_day.tmod 60
  let yr := yearLoop 1970 days
  let year := yr.1
  let day0 := yr.2 + 1
  let md := monthLoop (is_leap year) month_days 0 1 day0
  (year, md.1, md.2, hour, minute, second)

/-- The `DateTime` struct of `src/datediff.rs` (`i32` year, `u32` fields
modelled as `Int`). -/
structure DateTime where
  year : Int
  month : Int
  day : Int
  hour : Int
  minute : Int
  second : Int
deriving DecidableEq, Repr

/-- Constructor `DateTime::new`. -/
def DateTime.new (year month day hour minute second : Int) : DateTime :=
  ⟨year, month, day, hour, minute, second⟩

/-- Method `DateTime::now` reads the system clock; the ambient clock is made explicit
as the `cur` parameter threaded through the pure embedding. -/
def DateTime.now (cur : DateTime) : DateTime := cur

/-- Method `DateTime::today`: the current date at 00:00:00. -/
def DateTime.today (cur : DateTime) : DateTime :=
  DateTime.new cur.year cur.month cur.day 0 0 0

/-- Method `DateTime::yesterday`. -/
def DateTime.yesterday (cur : DateTime) : DateTime :=
  let t := DateTime.today cur
  let timestamp := date_to_seconds t.year t.month t.day 0 0 0 - 86400
  let r := seconds_to_date timestamp
  DateTime.new r.1 r.2.1 r.2.2.1 0 0 0

/-- Method `DateTime::tomorrow`. -/
def DateTime.tomorrow (cur : DateTime) : DateTime :=
  let t := DateTime.today cur
  let timestamp := date_to_seconds t.year t.month t.day 0 0 0 + 86400
  let r := seconds_to_date timestamp
  DateTime.new r.1 r.2.1 r.2.2.1 0 0 0

/-- Rust `str::split(sep)` on a single separator character: always returns at
least one (possibly empty) piece, with empty pieces between adjacent
separators. -/
def splitOnChar (sep : Char) : List Char → List (List Char)
  | [] => [[]]
  | c :: rest =>
    if c = sep then [] :: splitOnChar sep rest
    else
      match splitOnChar sep rest with
      | [] => [[c]]
      | p :: ps => (c :: p) :: ps

/-- Value of a list of decimal digits, `none` if empty or a non-digit occurs
(the digit-accumulation part of Rust `str::parse` for unsigned integers). -/
def parseDigits : List Char → Option Nat
  | [] => none
  | cs => go cs 0
where
  go : List Char → Nat → Option Nat
    | [], acc => some acc
    | c :: rest, acc =>
      if '0' ≤ c ∧ c ≤ '9' then go rest (acc * 10 + (c.toNat - 48)) else none

/-- Rust `"...".parse::<u32>()`: optional leading `+`, at least one digit,
value below `2^32`. -/
def parseU32 (s : List Char) : Option Int :=
  let body := match s with
    | '+' :: rest => rest
    | _ => s
  match parseDigits body with
  | none => none
  | some n => if n < 2 ^ 32 then some (n : Int) else none

/-- Rust `"...".parse::<i32>()`: optional leading `+` or `-`, at least one
digit, value within the `i32` range. -/
def parseI32 (s : List Char) : Option Int :=
  match s with
  | '-' :: rest =>
    (match parseDigits rest with
     | none => none
     | some n => if (n : Int) ≤ 2 ^ 31 then some (-(n : Int)) else none)
  | '+' :: rest =>
    (match parseDigits rest with
     | none => none
     | some n => if (n : Int) < 2 ^ 31 then some (n : Int) else none)
  | _ =>
    (match parseDigits s with
     | none => none
     | some n => if (n : Int) < 2 ^ 31 then some (n : Int) else none)

/-- Method `DateTime::from_str` from `src/datediff.rs` (lines 56-113).  The ambient
clock (used only by the `now`/`today`/`yesterday`/`tomorrow` keywords) is the
explicit `cur` parameter; the input string is a `List Char`. -/
def DateTime.from_str (cur : DateTime) (s : List Char) : Except String DateTime :=
  let l := rustToLower s
  if l = "now".toList then .ok (DateTime.now cur)
  else if l = "today".toList then .ok (DateTime.today cur)
  else if l = "yesterday".toList then .ok (DateTime.yesterday cur)
  else if l = "tomorrow".toList then .ok (DateTime.tomorrow cur)
  else
    let parts := splitOnChar ' ' s
    let dateParts := splitOnChar '-' (parts.getD 0 [])
    if dateParts.length ≠ 3 then .error ("Invalid date format. Expected YYYY-MM-DD")
    else
      match parseI32 (dateParts.getD 0 []) with
      | none => .error ("Invalid year")
      | some year =>
        match parseU32 (dateParts.getD 1 []) with
        | none => .error ("Invalid month")
        | some month =>
          match parseU32 (dateParts.getD 2 []) with
          | none => .error ("Invalid day")
          | some day =>
            let timeResult : Except String (Int × Int × Int) :=
              if 1 < parts.length then
                let timeParts := splitOnChar ':' (parts.getD 1 [])
                if timeParts.length ≠ 3 then .error ("Invalid time format. Expected HH:MM:SS")
                else
                  match parseU32 (timeParts.getD 0 []) with
                  | none => .error ("Invalid hour")
                  | some hour =>
                    match parseU32 (timeParts.getD 1 []) with
                    | none => .error ("Invalid minute")
                    | some minute =>
                      match parseU32 (timeParts.getD 2 []) with
                      | none => .error ("Invalid second")
                      | some second => .ok (hour, minute, second)
              else .ok (0, 0, 0)
            match timeResult with
            | .error e => .error e
            | .ok (hour, minute, second) =>
              if month < 1 ∨ 12 < month then .error ("Month must be between 1 and 12")
              else if day < 1 ∨ 31 < day then .error ("Day must be between 1 and 31")
              else if 23 < hour then .error ("Hour must be between 0 and 23")
              else if 59 < minute then .error ("Minute must be between 0 and 59")
              else if 59 < second then .error ("Second must be between 0 and 59")
              else .ok (DateTime.new year month day hour minute second)

/-- The `TimeDiff` struct of `src/datediff.rs`. -/
structure TimeDiff where
  years : Int
  months : Int
  days : Int
  hours : Int
  minutes : Int
  seconds : Int
  total_seconds : Int
deriving DecidableEq, Repr

/-- Method `DateTime::to_seconds`. -/
def DateTime.to_seconds (d : DateTime) : Int :=
  date_to_seconds d.year d.month d.day d.hour d.minute d.second

/-- Function `calculate_diff` from `src/datediff.rs` (lines 233-258); Rust `i64`
division and remainder are `Int.tdiv` and `Int.tmod`. -/
def calculate_diff (date1 date2 : DateTime) : TimeDiff :=
  let seconds1 := date1.to_seconds
  let seconds2 := date2.to_seconds
  let total_seconds := seconds2 - seconds1
  let total_days := total_seconds.tdiv 86400
  let years := total_days.tdiv 365
  let remaining_days := total_days.tmod 365
  let months := remaining_days.tdiv 30
  let days := remaining_days.tmod 30
  let remaining_seconds := total_seconds.tmod 86400
  let hours := remaining_seconds.tdiv 3600
  let minutes := (remaining_seconds.tmod 3600).tdiv 60
  let seconds := remaining_seconds.tmod 60
  ⟨years, months, days, hours, minutes, seconds, total_seconds⟩

/-- The tail of `main` in `src/datediff.rs` (lines 380-397), after flag
processing has produced the two date strings: parse the first date (on error,
report and exit with status 1), then the second (likewise), and only when both
parse compute the difference and print it.  The result is the process exit
status paired with the difference that gets printed, `none` when the program
exits before printing one. -/
def datediff_run (cur : DateTime) (date1_str date2_str : List Char) :
    Nat × Option TimeDiff :=
  match DateTime.from_str cur date1_str with
  | .error _ => (1, none)
  | .ok date1 =>
    match DateTime.from_str cur date2_str with
    | .error _ => (1, none)
    | .ok date2 => (0, some (calculate_diff date1 date2))

end Datediff

namespace Estimate

/-- The `ExecutionStats` struct of `src/estimate/estimate.rs` (lines 38-47).
`std::time::Duration` values are modelled as nanosecond counts (`Nat`), the
`VecDeque<Duration>` as a `List Nat` (only `push_back` is used, so a list
appended on the right is an exact model). -/
structure ExecutionStats where
  times : List Nat
  min : Nat
  max : Nat
  avg : Nat
  total_time : Nat
  success_count : Nat
  fail_count : Nat
deriving DecidableEq, Repr

/-- Constructor `ExecutionStats::new` (lines 50-60): empty history, all durations zero. -/
def ExecutionStats.new : ExecutionStats :=
  ⟨[], 0, 0, 0, 0, 0, 0⟩

/-- Method `ExecutionStats::add_execution` (lines 62-82): record the duration
and success flag of one run, then update min/max (seeded from the first recorded run) and
recompute the average as total time divided by the number of recorded runs
(`Duration / u32` truncates, i.e. `Nat` division on nanoseconds). -/
def ExecutionStats.add_execution (s : ExecutionStats) (duration : Nat) (success : Bool) :
    ExecutionStats :=
  let times := s.times ++ [duration]
  let total_time := s.total_time + duration
  let success_count := if success then s.success_count + 1 else s.success_count
  let fail_count := if success then s.fail_count else s.fail_count + 1
  let min := if times.length = 1 ∨ duration < s.min then duration else s.min
  let max := if times.length = 1 ∨ s.max < duration then duration else s.max
  let avg := total_time / times.length
  ⟨times, min, max, avg, total_time, success_count, fail_count⟩

/-- One step of recording: feed a `(duration, success)` pair to
`add_execution`. -/
def recordRun (s : ExecutionStats) (run : Nat × Bool) : ExecutionStats :=
  s.add_execution run.1 run.2

/-- The measurement loop of `main` in `src/estimate/estimate.rs` (lines
222-238), in the case where every `run_command` call succeeds: iterate over
the observed `(duration, success)` outcomes with a running index `i`, feeding
the outcome to the statistics only when `i >= warmup`. -/
def mainLoop (warmup : Nat) : Nat → ExecutionStats → List (Nat × Bool) → ExecutionStats
  | _, stats, [] => stats
  | i, stats, run :: rest =>
    mainLoop warmup (i + 1) (if warmup ≤ i then recordRun stats run else stats) rest

/-- The whole measurement phase of `main`: start from fresh statistics and run
the loop from index 0 over all `warmup + iterations` outcomes. -/
def estimateMain (warmup : Nat) (runs : List (Nat × Bool)) : ExecutionStats :=
  mainLoop warmup 0 ExecutionStats.new runs

/-- The invariant maintained by `add_execution`: counters sum to the history
length, the total is the sum of the history, the average is the truncated mean
of the history, and min/max are the least and greatest recorded duration. -/
def StatsInv (s : ExecutionStats) : Prop :=
  s.success_count + s.fail_count = s.times.length ∧
  s.total_time = s.times.sum ∧
  s.avg = s.times.sum / s.times.length ∧
  (s.times ≠ [] →
    s.min ∈ s.times ∧ (∀ x ∈ s.times, s.min ≤ x) ∧
    s.max ∈ s.times ∧ (∀ x ∈ s.times, x ≤ s.max))

end Estimate

namespace Extract

/-- The `ArchiveType` enum of `src/extract/extract.rs` (lines 39-50). -/
inductive ArchiveType where
  | zip
  | tar
  | tarGz
  | tarBz2
  | tarXz
  | tarZst
  | sevenZip
  | rar
  | unknown
deriving DecidableEq, Repr

/-- Rust `str::ends_with` on `List Char`. -/
def rustEndsWith (s suffix : List Char) : Bool :=
  go suffix.reverse s.reverse
where
  /-- Prefix test on the reversed lists. -/
  go : List Char → List Char → Bool
    | [], _ => true
    | _ :: _, [] => false
    | a :: as, b :: bs => a = b && go as bs

/-- Model of `std::path::Path::extension` for a path given by its final component (the
file name): the portion of the name after the last `.`, or `none` when there
is no `.` or the only text before the last `.` is empty (hidden files like
`".tar"`). -/
def rustExtension (name : List Char) : Option (List Char) :=
  go name.reverse []
where
  /-- Scan the reversed name, accumulating the candidate extension until the
  first `.` is met. -/
  go : List Char → List Char → Option (List Char)
    | [], _ => none
    | c :: rest, acc =>
      if c = '.' then (if rest = [] then none else some acc)
      else go rest (c :: acc)

/-- Method `ArchiveType::from_path` (`src/extract/extract.rs` lines 53-76) for a path
given by its file name.  The lowercased name is matched against the compound
suffixes first, then the lowercased extension against the simple ones, in
source order. -/
def ArchiveType.from_path (name : List Char) : ArchiveType :=
  let ext := (rustExtension name).getD []
  let lname := rustToLower name
  let lext := rustToLower ext
  if rustEndsWith lname (".tar.gz".toList) then .tarGz
  else if rustEndsWith lname (".tar.bz2".toList) then .tarBz2
  else if rustEndsWith lname (".tar.xz".toList) then .tarXz
  else if rustEndsWith lname (".tar.zst".toList) then .tarZst
  else if lext = "tgz".toList then .tarGz
  else if lext = "tbz2".toList then .tarBz2
  else if lext = "txz".toList then .tarXz
  else if lext = "zip".toList then .zip
  else if lext = "tar".toList then .tar
  else if lext = "7z".toList then .sevenZip
  else if lext = "rar".toList then .rar
  else .unknown

/-- Method `ArchiveType::get_command` (lines 78-90): the external binary and base
argument list used to extract each archive type. -/
def ArchiveType.get_command : ArchiveType → Option (String × List String)
  | .zip => some ("unzip", ["-q"])
  | .tar => some ("tar", ["-xf"])
  | .tarGz => some ("tar", ["-xzf"])
  | .tarBz2 => some ("tar", ["-xjf"])
  | .tarXz => some ("tar", ["-xJf"])
  | .tarZst => some ("tar", ["--zstd", "-xf"])
  | .sevenZip => some ("7z", ["x"])
  | .rar => some ("unrar", ["x"])
  | .unknown => none

/-- Method `ArchiveType::get_list_command` (lines 92-104): the external binary and
base argument list used to list each archive type. -/
def ArchiveType.get_list_command : ArchiveType → Option (String × List String)
  | .zip => some ("unzip", ["-l"])
  | .tar => some ("tar", ["-tf"])
  | .tarGz => some ("tar", ["-tzf"])
  | .tarBz2 => some ("tar", ["-tjf"])
  | .tarXz => some ("tar", ["-tJf"])
  | .tarZst => some ("tar", ["--zstd", "-tf"])
  | .sevenZip => some ("7z", ["l"])
  | .rar => some ("unrar", ["l"])
  | .unknown => none

end Extract

end Advbox

namespace Advbox

namespace Datediff

/-- In the range `0 ≤ year`, the Rust leap test (written with truncating `%`)
agrees with the mathematical divisibility rule stated with `Int.emod`. -/
theorem is_leap_iff_emod (year : Int) (hy : 0 ≤ year) :
    is_leap year = true ↔ ((year % 4 = 0 ∧ year % 100 ≠ 0) ∨ year % 400 = 0) := by
  simp only [is_leap, decide_eq_true_eq]
  rw [Int.tmod_eq_emod hy (by norm_num), Int.tmod_eq_emod hy (by norm_num),
    Int.tmod_eq_emod hy (by norm_num)]

/-- C3: for `year ≥ 1970`, `date_to_seconds` decomposes into day-of-year
arithmetic plus an accumulated leap-day count that uses floor division by 4,
minus by 100, plus by 400, plus a one-day correction added exactly when
`month > 2` and the year satisfies the rule (divisible by 4 and not by 100, or
divisible by 400); `/` and `%` on the right-hand side are mathematical floor
division and modulus. -/
theorem date_to_seconds_leap_rule (year month day hour minute second : Int)
    (hy : 1970 ≤ year) :
    date_to_seconds year month day hour minute second =
      (daysBeforeMonth.getD (month - 1).toNat 0 + day - 1
        + ((1968 + (year - 1970)) / 4 - (1968 + (year - 1970)) / 100
            + (1968 + (year - 1970)) / 400
            - (1968 / 4 - 1968 / 100 + 1968 / 400))
        + (if 2 < month ∧ ((year % 4 = 0 ∧ year % 100 ≠ 0) ∨ year % 400 = 0) then 1 else 0))
        * 86400 + hour * 3600 + minute * 60 + second := by
  have h1968 : (0 : Int) ≤ 1968 + (year - 1970) := by omega
  have hy0 : (0 : Int) ≤ year := by omega
  simp only [date_to_seconds]
  rw [Int.tdiv_eq_ediv h1968 (by norm_num : (0:Int) ≤ 4),
    Int.tdiv_eq_ediv h1968 (by norm_num : (0:Int) ≤ 100),
    Int.tdiv_eq_ediv h1968 (by norm_num : (0:Int) ≤ 400),
    Int.tdiv_eq_ediv (by norm_num : (0:Int) ≤ 1968) (by norm_num : (0:Int) ≤ 4),
    Int.tdiv_eq_ediv (by norm_num : (0:Int) ≤ 1968) (by norm_num : (0:Int) ≤ 100),
    Int.tdiv_eq_ediv (by norm_num : (0:Int) ≤ 1968) (by norm_num : (0:Int) ≤ 400)]
  by_cases hc : 2 < month ∧ is_leap year = true
  · rw [if_pos hc, if_pos ⟨hc.1, (is_leap_iff_emod year hy0).mp hc.2⟩]
    ring
  · rw [if_neg hc, if_neg (fun hc' => hc ⟨hc'.1, (is_leap_iff_emod year hy0).mpr hc'.2⟩)]
    ring

/-- Witness for `date_to_seconds_leap_rule` at 2024-03-01 00:00:00 (a leap
year, month after February). -/
theorem date_to_seconds_leap_rule_witness :
    date_to_seconds 2024 3 1 0 0 0 =
      (daysBeforeMonth.getD ((3:Int) - 1).toNat 0 + 1 - 1
        + ((1968 + (2024 - 1970)) / 4 - (1968 + (2024 - 1970)) / 100
            + (1968 + (2024 - 1970)) / 400
            - (1968 / 4 - 1968 / 100 + 1968 / 400))
        + (if 2 < (3:Int) ∧ (((2024:Int) % 4 = 0 ∧ (2024:Int) % 100 ≠ 0) ∨ (2024:Int) % 400 = 0)
            then 1 else 0))
        * 86400 + 0 * 3600 + 0 * 60 + 0 :=
  date_to_seconds_leap_rule 2024 3 1 0 0 0 (by norm_num)

/-- C1 (code bug): `date_to_seconds` never adds the `365 * (year - 1970)` day
base for the elapsed whole years (the local variable `years` is only used in
the leap-day count), so 1971-01-01T00:00:00, which lies 365 days = 31536000
seconds after the epoch, is mapped to 0. -/
theorem date_to_seconds_missing_year_base :
    date_to_seconds 1971 1 1 0 0 0 = 0 ∧ (0 : Int) ≠ 365 * 86400 := by
  constructor
  · decide
  · decide

/-- C2 (code bug): because the encoder drops the whole-year day base while the
decoder `seconds_to_date` does advance whole years, the pair is not inverse:
round-tripping 1971-01-01T00:00:00 yields 1970-01-01T00:00:00. -/
theorem roundtrip_fails_at_1971 :
    seconds_to_date (date_to_seconds 1971 1 1 0 0 0) = (1970, 1, 1, 0, 0, 0) ∧
    seconds_to_date (date_to_seconds 1971 1 1 0 0 0) ≠ (1971, 1, 1, 0, 0, 0) := by
  have h0 : date_to_seconds 1971 1 1 0 0 0 = 0 := by decide
  have hy : yearLoop 1970 0 = (1970, 0) := by simp [yearLoop]
  have hs : seconds_to_date 0 = (1970, 1, 1, 0, 0, 0) := by
    simp [seconds_to_date, hy, monthLoop, is_leap, month_days]
  rw [h0, hs]
  exact ⟨rfl, by decide⟩

/-- C10: `DateTime::from_str` checks the day only against the fixed range
1..=31, so the impossible date string "2023-02-31" parses successfully
(February has at most 29 days), whatever the ambient clock is. -/
theorem from_str_accepts_feb_31 :
    DateTime.from_str (DateTime.new 2024 1 1 0 0 0) "2023-02-31".toList =
      .ok (DateTime.new 2023 2 31 0 0 0) := rfl

/-- C7: the tail of `main` in datediff exits with status 1 and prints no
difference as soon as either date string fails to parse, and computes and
prints a difference exactly when both parse. -/
theorem datediff_error_exit (cur : DateTime) (date1_str date2_str : List Char) :
    (((∃ e, DateTime.from_str cur date1_str = .error e) ∨
      (∃ e, DateTime.from_str cur date2_str = .error e)) →
        datediff_run cur date1_str date2_str = (1, none)) ∧
    (∀ d1 d2, DateTime.from_str cur date1_str = .ok d1 →
        DateTime.from_str cur date2_str = .ok d2 →
        datediff_run cur date1_str date2_str = (0, some (calculate_diff d1 d2))) := by
  constructor
  · rintro (⟨e, he⟩ | ⟨e, he⟩)
    · simp [datediff_run, he]
    · cases h1 : DateTime.from_str cur date1_str with
      | error e1 => simp [datediff_run, h1]
      | ok d1 => simp [datediff_run, h1, he]
  · intro d1 d2 h1 h2
    simp [datediff_run, h1, h2]

/-- Witness for `datediff_error_exit`: an unparsable first date makes the
program exit with status 1 and print nothing. -/
theorem datediff_error_exit_witness :
    datediff_run (DateTime.new 2024 1 1 0 0 0) ("bad".toList) ("2024-01-01".toList) = (1, none) :=
  (datediff_error_exit (DateTime.new 2024 1 1 0 0 0) ("bad".toList) ("2024-01-01".toList)).1
    (Or.inl ⟨"Invalid date format. Expected YYYY-MM-DD", rfl⟩)

end Datediff

namespace Estimate

/-- Once the index has reached the warmup count, the measurement loop records
every remaining run. -/
theorem mainLoop_after (w : Nat) :
    ∀ (runs : List (Nat × Bool)) (i : Nat) (s : ExecutionStats), w ≤ i →
      mainLoop w i s runs = runs.foldl recordRun s := by
  intro runs
  induction runs with
  | nil => intro i s _; rfl
  | cons r rest ih =>
    intro i s h
    simp only [mainLoop, List.foldl_cons, if_pos h]
    exact ih (i + 1) _ (by omega)

/-- The measurement loop started at index `i` is the plain fold over the list
with its first `w - i` elements dropped. -/
theorem mainLoop_drop (w : Nat) :
    ∀ (runs : List (Nat × Bool)) (i : Nat) (s : ExecutionStats),
      mainLoop w i s runs = (runs.drop (w - i)).foldl recordRun s := by
  intro runs
  induction runs with
  | nil => intro i s; simp [mainLoop]
  | cons r rest ih =>
    intro i s
    by_cases h : w ≤ i
    · have hw : w - i = 0 := by omega
      rw [hw, List.drop_zero, List.foldl_cons]
      simp only [mainLoop, if_pos h]
      exact mainLoop_after w rest (i + 1) _ (by omega)
    · have hw : w - i = (w - (i + 1)) + 1 := by omega
      rw [hw, List.drop_succ_cons]
      simp only [mainLoop, if_neg h]
      exact ih (i + 1) s

/-- C4: with warmup count `w` and iteration count `n ≥ 1`, when all `w + n`
runs execute, the statistics produced by the main loop are exactly those of a
fold of `add_execution` over the `n` non-warmup outcomes: the first `w`
durations contribute to nothing. -/
theorem warmup_runs_discarded (w n : Nat) (runs : List (Nat × Bool))
    (hn : 1 ≤ n) (hlen : runs.length = w + n) :
    estimateMain w runs = (runs.drop w).foldl recordRun ExecutionStats.new ∧
    (runs.drop w).length = n := by
  constructor
  · have h := mainLoop_drop w runs 0 ExecutionStats.new
    simpa [estimateMain] using h
  · rw [List.length_drop, hlen]
    omega

/-- Witness for `warmup_runs_discarded`: one warmup run and one measured
run. -/
theorem warmup_runs_discarded_witness :
    estimateMain 1 [(5, true), (3, false)] =
      (([(5, true), (3, false)] : List (Nat × Bool)).drop 1).foldl recordRun
        ExecutionStats.new ∧
    (([(5, true), (3, false)] : List (Nat × Bool)).drop 1).length = 1 :=
  warmup_runs_discarded 1 1 [(5, true), (3, false)] (by norm_num) (by decide)

/-- Sum of a list of naturals is at least any lower bound times the length. -/
theorem length_mul_le_sum (m : Nat) :
    ∀ l : List Nat, (∀ x ∈ l, m ≤ x) → m * l.length ≤ l.sum := by
  intro l
  induction l with
  | nil => intro _; simp
  | cons a rest ih =>
    intro h
    have ha : m ≤ a := h a (List.mem_cons_self a rest)
    have hr := ih (fun x hx => h x (List.mem_cons_of_mem a hx))
    simp only [List.length_cons, List.sum_cons, Nat.mul_succ]
    omega

/-- Sum of a list of naturals is at most any upper bound times the length. -/
theorem sum_le_length_mul (m : Nat) :
    ∀ l : List Nat, (∀ x ∈ l, x ≤ m) → l.sum ≤ m * l.length := by
  intro l
  induction l with
  | nil => intro _; simp
  | cons a rest ih =>
    intro h
    have ha : a ≤ m := h a (List.mem_cons_self a rest)
    have hr := ih (fun x hx => h x (List.mem_cons_of_mem a hx))
    simp only [List.length_cons, List.sum_cons, Nat.mul_succ]
    omega

/-- Fresh statistics satisfy the invariant. -/
theorem statsInv_new : StatsInv ExecutionStats.new := by
  refine ⟨rfl, rfl, rfl, fun h => absurd rfl h⟩

/-- Recording one more execution preserves the invariant. -/
theorem statsInv_add (s : ExecutionStats) (d : Nat) (b : Bool) (hs : StatsInv s) :
    StatsInv (s.add_execution d b) := by
  obtain ⟨hcnt, htot, havg, hmm⟩ := hs
  simp only [StatsInv, ExecutionStats.add_execution]
  refine ⟨?_, ?_, ?_, ?_⟩
  · cases b <;> simp <;> omega
  · simp [List.sum_append, htot]
  · simp [List.sum_append, htot]
  · intro _
    by_cases h0 : s.times = []
    · simp [h0]
    · obtain ⟨hminMem, hminLe, hmaxMem, hmaxLe⟩ := hmm h0
      have hlen1 : (s.times ++ [d]).length ≠ 1 := by
        cases hx : s.times with
        | nil => exact absurd hx h0
        | cons t rest => simp [hx]
      refine ⟨?_, ?_, ?_, ?_⟩
      · by_cases hd : d < s.min
        · rw [if_pos (Or.inr hd)]
          exact List.mem_append_right _ (by simp)
        · rw [if_neg (not_or.mpr ⟨hlen1, hd⟩)]
          exact List.mem_append_left _ hminMem
      · intro x hx
        rcases List.mem_append.mp hx with hx' | hx'
        · by_cases hd : d < s.min
          · rw [if_pos (Or.inr hd)]
            exact le_trans (le_of_lt hd) (hminLe x hx')
          · rw [if_neg (not_or.mpr ⟨hlen1, hd⟩)]
            exact hminLe x hx'
        · have hxd : x = d := by simpa using hx'
          subst hxd
          by_cases hd : x < s.min
          · rw [if_pos (Or.inr hd)]
          · rw [if_neg (not_or.mpr ⟨hlen1, hd⟩)]
            omega
      · by_cases hd : s.max < d
        · rw [if_pos (Or.inr hd)]
          exact List.mem_append_right _ (by simp)
        · rw [if_neg (not_or.mpr ⟨hlen1, hd⟩)]
          exact List.mem_append_left _ hmaxMem
      · intro x hx
        rcases List.mem_append.mp hx with hx' | hx'
        · by_cases hd : s.max < d
          · rw [if_pos (Or.inr hd)]
            exact le_trans (hmaxLe x hx') (le_of_lt hd)
          · rw [if_neg (not_or.mpr ⟨hlen1, hd⟩)]
            exact hmaxLe x hx'
        · have hxd : x = d := by simpa using hx'
          subst hxd
          by_cases hd : s.max < x
          · rw [if_pos (Or.inr hd)]
          · rw [if_neg (not_or.mpr ⟨hlen1, hd⟩)]
            omega

/-- Folding any sequence of recorded runs over an invariant-satisfying state
preserves the invariant. -/
theorem statsInv_fold (ops : List (Nat × Bool)) :
    ∀ s : ExecutionStats, StatsInv s → StatsInv (ops.foldl recordRun s) := by
  induction ops with
  | nil => intro s hs; exact hs
  | cons op rest ih =>
    intro s hs
    exact ih _ (statsInv_add s op.1 op.2 hs)

/-- C9: starting from `ExecutionStats::new`, after any sequence of
`add_execution` calls the success and failure counters sum to the number of
recorded times, the total time is the sum of the recorded durations, and once
at least one run is recorded, min and max are the smallest and largest
recorded durations and `min ≤ avg ≤ max`. -/
theorem stats_fold_invariant (ops : List (Nat × Bool)) (s : ExecutionStats)
    (hs : s = ops.foldl recordRun ExecutionStats.new) :
    s.success_count + s.fail_count = s.times.length ∧
    s.total_time = s.times.sum ∧
    (s.times ≠ [] →
      s.min ∈ s.times ∧ (∀ x ∈ s.times, s.min ≤ x) ∧
      s.max ∈ s.times ∧ (∀ x ∈ s.times, x ≤ s.max) ∧
      s.min ≤ s.avg ∧ s.avg ≤ s.max) := by
  subst hs
  obtain ⟨hcnt, htot, havg, hmm⟩ := statsInv_fold ops ExecutionStats.new statsInv_new
  refine ⟨hcnt, htot, fun hne => ?_⟩
  obtain ⟨hminMem, hminLe, hmaxMem, hmaxLe⟩ := hmm hne
  have hpos : 0 < (ops.foldl recordRun ExecutionStats.new).times.length :=
    List.length_pos.mpr hne
  refine ⟨hminMem, hminLe, hmaxMem, hmaxLe, ?_, ?_⟩
  · rw [havg, Nat.le_div_iff_mul_le hpos]
    exact length_mul_le_sum _ _ hminLe
  · rw [havg]
    calc (ops.foldl recordRun ExecutionStats.new).times.sum /
          (ops.foldl recordRun ExecutionStats.new).times.length
        ≤ (ops.foldl recordRun ExecutionStats.new).max *
            (ops.foldl recordRun ExecutionStats.new).times.length /
            (ops.foldl recordRun ExecutionStats.new).times.length :=
          Nat.div_le_div_right (sum_le_length_mul _ _ hmaxLe)
      _ = (ops.foldl recordRun ExecutionStats.new).max := Nat.mul_div_cancel _ hpos

/-- Witness for `stats_fold_invariant`: after recording runs of 5 and 3
nanoseconds the state is `⟨[5, 3], 3, 5, 4, 8, 1, 1⟩` and `min ≤ avg ≤ max`
holds as `3 ≤ 4 ≤ 5`. -/
theorem stats_fold_invariant_witness :
    (⟨[5, 3], 3, 5, 4, 8, 1, 1⟩ : ExecutionStats).min ≤
      (⟨[5, 3], 3, 5, 4, 8, 1, 1⟩ : ExecutionStats).avg ∧
    (⟨[5, 3], 3, 5, 4, 8, 1, 1⟩ : ExecutionStats).avg ≤
      (⟨[5, 3], 3, 5, 4, 8, 1, 1⟩ : ExecutionStats).max := by
  have h := stats_fold_invariant [(5, true), (3, false)] ⟨[5, 3], 3, 5, 4, 8, 1, 1⟩ (by decide)
  have h2 := h.2.2 (by decide)
  exact ⟨h2.2.2.2.2.1, h2.2.2.2.2.2⟩

end Estimate

namespace Extract

/-- On a name of the form `pre ++ ".tar"`, `Path::extension` yields `"tar"`
provided the stem `pre` is nonempty (for the bare name `".tar"` Rust treats
the whole name as a hidden-file stem and reports no extension). -/
theorem rustExtension_append_tar (pre : List Char) (hpre : pre ≠ []) :
    rustExtension (pre ++ ".tar".toList) = some ("tar".toList) := by
  unfold rustExtension
  have ht : ".tar".toList = ['.', 't', 'a', 'r'] := rfl
  rw [ht, List.reverse_append]
  show (if pre.reverse = [] then none else some ['t', 'a', 'r']) = some ("tar".toList)
  rw [if_neg (by simpa using hpre)]
  rfl

/-- On a name of the form `pre ++ ".gz"` with nonempty stem, `Path::extension`
yields `"gz"`. -/
theorem rustExtension_append_gz (pre : List Char) (hpre : pre ≠ []) :
    rustExtension (pre ++ ".gz".toList) = some ("gz".toList) := by
  unfold rustExtension
  have ht : ".gz".toList = ['.', 'g', 'z'] := rfl
  rw [ht, List.reverse_append]
  show (if pre.reverse = [] then none else some ['g', 'z']) = some ("gz".toList)
  rw [if_neg (by simpa using hpre)]
  rfl

/-- Lowercasing distributes over the append of a suffix that is already
lowercase ASCII punctuation and letters. -/
theorem rustToLower_append (pre suf : List Char) :
    rustToLower (pre ++ suf) = rustToLower pre ++ rustToLower suf := by
  unfold rustToLower
  rw [List.map_append]

/-- C5: archive dispatch distinguishes compound extensions.  A name whose
lowercased form ends in ".tar.gz" is classified `TarGz` and handled by
`tar -xzf` / `tar -tzf`; a name `pre ++ ".tar"` with nonempty stem is
classified `Tar` and handled by the different argument sets `tar -xf` /
`tar -tf`; and a name `pre ++ ".gz"` that does not end in ".tar.gz" is
classified `Unknown`, to which no command at all is assigned. -/
theorem archive_compound_dispatch (name pre : List Char) :
    (rustEndsWith (rustToLower name) ".tar.gz".toList = true →
        ArchiveType.from_path name = .tarGz ∧
        ArchiveType.tarGz.get_command = some ("tar", ["-xzf"]) ∧
        ArchiveType.tarGz.get_list_command = some ("tar", ["-tzf"])) ∧
    (pre ≠ [] →
        ArchiveType.from_path (pre ++ ".tar".toList) = .tar ∧
        ArchiveType.tar.get_command = some ("tar", ["-xf"]) ∧
        ArchiveType.tar.get_list_command = some ("tar", ["-tf"]) ∧
        ArchiveType.tar.get_command ≠ ArchiveType.tarGz.get_command ∧
        ArchiveType.tar.get_list_command ≠ ArchiveType.tarGz.get_list_command) ∧
    (rustEndsWith (rustToLower (pre ++ ".gz".toList)) ".tar.gz".toList = false →
        ArchiveType.from_path (pre ++ ".gz".toList) = .unknown ∧
        ArchiveType.unknown.get_command = none ∧
        ArchiveType.unknown.get_list_command = none) := by
  refine ⟨fun h => ⟨?_, rfl, rfl⟩, fun hpre => ⟨?_, rfl, rfl, by decide, by decide⟩,
    fun h => ⟨?_, rfl, rfl⟩⟩
  · simp only [ArchiveType.from_path]
    rw [if_pos h]
  · have hlow : rustToLower (pre ++ ".tar".toList) = rustToLower pre ++ ['.', 't', 'a', 'r'] := by
      rw [rustToLower_append]; rfl
    have hrev : (rustToLower pre ++ ['.', 't', 'a', 'r']).reverse =
        'r' :: 'a' :: 't' :: '.' :: (rustToLower pre).reverse := by
      rw [List.reverse_append]; rfl
    have h1 : rustEndsWith (rustToLower (pre ++ ".tar".toList)) ".tar.gz".toList = false := by
      rw [hlow]; unfold rustEndsWith; rw [hrev]; rfl
    have h2 : rustEndsWith (rustToLower (pre ++ ".tar".toList)) ".tar.bz2".toList = false := by
      rw [hlow]; unfold rustEndsWith; rw [hrev]; rfl
    have h3 : rustEndsWith (rustToLower (pre ++ ".tar".toList)) ".tar.xz".toList = false := by
      rw [hlow]; unfold rustEndsWith; rw [hrev]; rfl
    have h4 : rustEndsWith (rustToLower (pre ++ ".tar".toList)) ".tar.zst".toList = false := by
      rw [hlow]; unfold rustEndsWith; rw [hrev]; rfl
    simp only [ArchiveType.from_path, rustExtension_append_tar pre hpre, h1, h2, h3, h4,
      Option.getD_some, Bool.false_eq_true, if_false]
    rfl
  · by_cases hpre : pre = []
    · subst hpre
      decide
    · have hlow : rustToLower (pre ++ ".gz".toList) = rustToLower pre ++ ['.', 'g', 'z'] := by
        rw [rustToLower_append]; rfl
      have hrev : (rustToLower pre ++ ['.', 'g', 'z']).reverse =
          'z' :: 'g' :: '.' :: (rustToLower pre).reverse := by
        rw [List.reverse_append]; rfl
      have h2 : rustEndsWith (rustToLower (pre ++ ".gz".toList)) ".tar.bz2".toList = false := by
        rw [hlow]; unfold rustEndsWith; rw [hrev]; rfl
      have h3 : rustEndsWith (rustToLower (pre ++ ".gz".toList)) ".tar.xz".toList = false := by
        rw [hlow]; unfold rustEndsWith; rw [hrev]; rfl
      have h4 : rustEndsWith (rustToLower (pre ++ ".gz".toList)) ".tar.zst".toList = false := by
        rw [hlow]; unfold rustEndsWith; rw [hrev]; rfl
      simp only [ArchiveType.from_path, rustExtension_append_gz pre hpre, h, h2, h3, h4,
        Option.getD_some, Bool.false_eq_true, if_false]
      rfl

/-- Witness for `archive_compound_dispatch` at the names "a.tar.gz", "b.tar"
and "b.gz". -/
theorem archive_compound_dispatch_witness :
    ArchiveType.from_path ("a.tar.gz".toList) = .tarGz ∧
    ArchiveType.from_path ("b".toList ++ ".tar".toList) = .tar ∧
    ArchiveType.from_path ("b".toList ++ ".gz".toList) = .unknown :=
  ⟨((archive_compound_dispatch ("a.tar.gz".toList) ("b".toList)).1 (by decide)).1,
   ((archive_compound_dispatch ("a.tar.gz".toList) ("b".toList)).2.1 (by decide)).1,
   ((archive_compound_dispatch ("a.tar.gz".toList) ("b".toList)).2.2 (by decide)).1⟩

/-- C6: for every archive type other than `Unknown`, both `get_command` and
`get_list_command` name a binary drawn from exactly `tar`, `unzip`, `7z`,
`unrar`; for `Unknown` both return `none`. -/
theorem archive_binary_whitelist (t : ArchiveType) :
    (t = .unknown → t.get_command = none ∧ t.get_list_command = none) ∧
    (t ≠ .unknown →
      ∃ c1 a1 c2 a2, t.get_command = some (c1, a1) ∧ t.get_list_command = some (c2, a2) ∧
        c1 ∈ (["tar", "unzip", "7z", "unrar"] : List String) ∧
        c2 ∈ (["tar", "unzip", "7z", "unrar"] : List String)) := by
  cases t with
  | zip =>
    exact ⟨(fun h => nomatch h),
      fun _ => ⟨"unzip", ["-q"], "unzip", ["-l"], rfl, rfl, by decide, by decide⟩⟩
  | tar =>
    exact ⟨(fun h => nomatch h),
      fun _ => ⟨"tar", ["-xf"], "tar", ["-tf"], rfl, rfl, by decide, by decide⟩⟩
  | tarGz =>
    exact ⟨(fun h => nomatch h),
      fun _ => ⟨"tar", ["-xzf"], "tar", ["-tzf"], rfl, rfl, by decide, by decide⟩⟩
  | tarBz2 =>
    exact ⟨(fun h => nomatch h),
      fun _ => ⟨"tar", ["-xjf"], "tar", ["-tjf"], rfl, rfl, by decide, by decide⟩⟩
  | tarXz =>
    exact ⟨(fun h => nomatch h),
      fun _ => ⟨"tar", ["-xJf"], "tar", ["-tJf"], rfl, rfl, by decide, by decide⟩⟩
  | tarZst =>
    exact ⟨(fun h => nomatch h),
      fun _ => ⟨"tar", ["--zstd", "-xf"], "tar", ["--zstd", "-tf"], rfl, rfl,
        by decide, by decide⟩⟩
  | sevenZip =>
    exact ⟨(fun h => nomatch h),
      fun _ => ⟨"7z", ["x"], "7z", ["l"], rfl, rfl, by decide, by decide⟩⟩
  | rar =>
    exact ⟨(fun h => nomatch h),
      fun _ => ⟨"unrar", ["x"], "unrar", ["l"], rfl, rfl, by decide, by decide⟩⟩
  | unknown => exact ⟨fun _ => ⟨rfl, rfl⟩, fun h => absurd rfl h⟩

/-- Witness for `archive_binary_whitelist` at `TarGz`. -/
theorem archive_binary_whitelist_witness :
    ∃ c1 a1 c2 a2, ArchiveType.tarGz.get_command = some (c1, a1) ∧
      ArchiveType.tarGz.get_list_command = some (c2, a2) ∧
      c1 ∈ (["tar", "unzip", "7z", "unrar"] : List String) ∧
      c2 ∈ (["tar", "unzip", "7z", "unrar"] : List String) :=
  (archive_binary_whitelist ArchiveType.tarGz).2 (by decide)

end Extract

namespace Datediff

/-- The year loop exits with a nonnegative remainder that is either below 365
or exactly 365 with the final year a leap year (the loop breaks at 365 days
only when the current year has 366). -/
theorem yearLoop_bounds (year dr : Int) :
    0 ≤ dr →
      0 ≤ (yearLoop year dr).2 ∧
      ((yearLoop year dr).2 < 365 ∨
        ((yearLoop year dr).2 = 365 ∧ is_leap (yearLoop year dr).1 = true)) := by
  induction year, dr using yearLoop.induct with
  | case1 year dr h1 h2 ih =>
    intro _
    unfold yearLoop
    rw [if_pos h1, if_pos h2]
    exact ih (by omega)
  | case2 year dr h1 h2 =>
    intro h0
    unfold yearLoop
    rw [if_pos h1, if_neg h2]
    refine ⟨h0, ?_⟩
    unfold daysInYear at h2
    by_cases hl : is_leap year = true
    · rw [if_pos hl] at h2
      exact Or.inr ⟨by omega, hl⟩
    · rw [if_neg hl] at h2
      exact absurd h1 h2
  | case3 year dr h1 =>
    intro h0
    unfold yearLoop
    rw [if_neg h1]
    exact ⟨h0, Or.inl (by omega)⟩

set_option maxRecDepth 8000 in
/-- Month/day bounds for the month loop in a leap year: any starting day in
1..366 ends at a month in 1..12 and a day in 1..31. -/
theorem monthLoop_bounds_leap : ∀ k : Nat, k < 366 →
    1 ≤ (monthLoop true month_days 0 1 ((k : Int) + 1)).1 ∧
    (monthLoop true month_days 0 1 ((k : Int) + 1)).1 ≤ 12 ∧
    1 ≤ (monthLoop true month_days 0 1 ((k : Int) + 1)).2 ∧
    (monthLoop true month_days 0 1 ((k : Int) + 1)).2 ≤ 31 := by decide

set_option maxRecDepth 8000 in
/-- Month/day bounds for the month loop in a common year: any starting day in
1..365 ends at a month in 1..12 and a day in 1..31. -/
theorem monthLoop_bounds_nonleap : ∀ k : Nat, k < 365 →
    1 ≤ (monthLoop false month_days 0 1 ((k : Int) + 1)).1 ∧
    (monthLoop false month_days 0 1 ((k : Int) + 1)).1 ≤ 12 ∧
    1 ≤ (monthLoop false month_days 0 1 ((k : Int) + 1)).2 ∧
    (monthLoop false month_days 0 1 ((k : Int) + 1)).2 ≤ 31 := by decide

/-- Any starting day that is at least 1 and at most the length of the year
leaves the month loop with a month in 1..12 and a day in 1..31. -/
theorem monthLoop_entry_bounds (leap : Bool) (day0 : Int)
    (h1 : 1 ≤ day0) (h2 : day0 ≤ 365 ∨ (day0 = 366 ∧ leap = true)) :
    1 ≤ (monthLoop leap month_days 0 1 day0).1 ∧
    (monthLoop leap month_days 0 1 day0).1 ≤ 12 ∧
    1 ≤ (monthLoop leap month_days 0 1 day0).2 ∧
    (monthLoop leap month_days 0 1 day0).2 ≤ 31 := by
  have hk : day0 = ((day0 - 1).toNat : Int) + 1 := by omega
  cases leap with
  | true =>
    rw [hk]
    exact monthLoop_bounds_leap (day0 - 1).toNat (by omega)
  | false =>
    have h365 : day0 ≤ 365 := by
      rcases h2 with h | h
      · exact h
      · exact absurd h.2 (by simp)
    rw [hk]
    exact monthLoop_bounds_nonleap (day0 - 1).toNat (by omega)

/-- C8: on any nonnegative seconds value, `seconds_to_date` yields a month in
1..12, a day in 1..31, an hour in 0..23, and a minute and second in 0..59. -/
theorem seconds_to_date_field_ranges (secs : Int) (hsecs : 0 ≤ secs)
    (y m d hh mi ss : Int) (heq : seconds_to_date secs = (y, m, d, hh, mi, ss)) :
    1 ≤ m ∧ m ≤ 12 ∧ 1 ≤ d ∧ d ≤ 31 ∧
    0 ≤ hh ∧ hh ≤ 23 ∧ 0 ≤ mi ∧ mi ≤ 59 ∧ 0 ≤ ss ∧ ss ≤ 59 := by
  simp only [seconds_to_date, Prod.mk.injEq] at heq
  obtain ⟨hy, hm, hd, hhh, hmi, hss⟩ := heq
  subst hy hm hd hhh hmi hss
  have h1 : 0 ≤ secs % 86400 := Int.emod_nonneg secs (by norm_num)
  have e1 : secs.tmod 86400 = secs % 86400 := Int.tmod_eq_emod hsecs (by norm_num)
  have e2 : (secs.tmod 86400).tdiv 3600 = (secs % 86400) / 3600 := by
    rw [e1]; exact Int.tdiv_eq_ediv h1 (by norm_num)
  have e3 : ((secs.tmod 86400).tmod 3600).tdiv 60 = ((secs % 86400) % 3600) / 60 := by
    rw [e1, Int.tmod_eq_emod h1 (by norm_num)]
    exact Int.tdiv_eq_ediv (Int.emod_nonneg _ (by norm_num)) (by norm_num)
  have e4 : (secs.tmod 86400).tmod 60 = (secs % 86400) % 60 := by
    rw [e1]; exact Int.tmod_eq_emod h1 (by norm_num)
  have hdays0 : 0 ≤ secs.tdiv 86400 := Int.tdiv_nonneg hsecs (by norm_num)
  obtain ⟨hdr0, hdr1⟩ := yearLoop_bounds 1970 (secs.tdiv 86400) hdays0
  have hmd := monthLoop_entry_bounds (is_leap (yearLoop 1970 (secs.tdiv 86400)).1)
    ((yearLoop 1970 (secs.tdiv 86400)).2 + 1) (by omega)
    (by
      rcases hdr1 with h | h
      · exact Or.inl (by omega)
      · exact Or.inr ⟨by omega, h.2⟩)
  refine ⟨hmd.1, hmd.2.1, hmd.2.2.1, hmd.2.2.2, ?_, ?_, ?_, ?_, ?_, ?_⟩
  · rw [e2]; omega
  · rw [e2]; omega
  · rw [e3]; omega
  · rw [e3]; omega
  · rw [e4]; omega
  · rw [e4]; omega

/-- Witness for `seconds_to_date_field_ranges` at 0 seconds, which decodes to
1970-01-01T00:00:00. -/
theorem seconds_to_date_field_ranges_witness :
    1 ≤ (1 : Int) ∧ (1 : Int) ≤ 12 ∧ 1 ≤ (1 : Int) ∧ (1 : Int) ≤ 31 ∧
    0 ≤ (0 : Int) ∧ (0 : Int) ≤ 23 ∧ 0 ≤ (0 : Int) ∧ (0 : Int) ≤ 59 ∧
    0 ≤ (0 : Int) ∧ (0 : Int) ≤ 59 :=
  seconds_to_date_field_ranges 0 (by norm_num) 1970 1 1 0 0 0 (by
    have hy : yearLoop 1970 0 = (1970, 0) := by simp [yearLoop]
    simp [seconds_to_date, hy, monthLoop, is_leap, month_days])

end Datediff

end Advbox

